import Mathlib

/-!
Verification of the SwiftLabel front-end replica (src/swiftlabel/static/app.js).

The file shallowly embeds the state and operations of the `SwiftLabelApp`
class.  JavaScript objects become structures, the mutable `this.session`
becomes explicit state passing (`Option Session`, `none` for a null session),
and methods become functions `Option Session → Option Session × List Msg`
returning the new state together with the WebSocket messages dispatched, in
emission order.  `this.currentImage` always aliases
`this.session.images[this.session.current_index]` in the code paths under
study, so it is modelled as the derived value `getImg s.images s.current_index`.
Array indices are `Int` (JavaScript numbers), with out-of-range reads giving
`none` (JavaScript `undefined`).
-/

namespace SwiftLabel

/-- One entry of `session.images` (the `ImageInfo` JSDoc typedef). -/
structure ImageInfo where
  id : String
  filename : String
  label : Option Int
  class_name : Option String
  marked_for_deletion : Bool
deriving DecidableEq, Repr

/-- The replica session state (the `SessionState` JSDoc typedef), restricted
to the fields the operations under study read or write. -/
structure Session where
  classes : List String
  images : List ImageInfo
  current_index : Int
deriving DecidableEq, Repr

/-- WebSocket messages the replica sends (the client→server kinds of the
protocol). -/
inductive Msg where
  | label (image_id : String) (class_index : Int)
  | delete (image_id : String)
  | navigate (index : Int)
  | sync
  | undo
deriving DecidableEq, Repr

/-- JavaScript array read `images[i]`: `none` when out of range. -/
def getImg (l : List ImageInfo) (i : Int) : Option ImageInfo :=
  if 0 ≤ i ∧ i < l.length then l[i.toNat]? else none

/-- JavaScript in-place update of `images[i]` (no-op when out of range). -/
def setImg (l : List ImageInfo) (i : Int) (x : ImageInfo) : List ImageInfo :=
  if 0 ≤ i ∧ i < l.length then l.set i.toNat x else l

/-- JavaScript array read `classes[i]`: `none` when out of range. -/
def getCls (classes : List String) (i : Int) : Option String :=
  if 0 ≤ i ∧ i < classes.length then classes[i.toNat]? else none

/-- Model of `navigateToIndex(index)` (app.js:1065): rejects a null session and
out-of-range targets, otherwise moves the cursor and notifies the server.
The `index` argument is taken first so that the equations specialise on the
session option. -/
def navigateToIndex (index : Int) : Option Session → Option Session × List Msg
  | none => (none, [])
  | some s =>
    if index < 0 ∨ index ≥ (s.images.length : Int) then (some s, [])
    else (some { s with current_index := index }, [Msg.navigate index])

/-- Model of `navigateNext()` (app.js:1035): clamp at the last index. -/
def navigateNext : Option Session → Option Session × List Msg
  | none => (none, [])
  | some s =>
    if s.images.length = 0 then (some s, [])
    else if min (s.current_index + 1) ((s.images.length : Int) - 1) ≠ s.current_index then
      navigateToIndex (min (s.current_index + 1) ((s.images.length : Int) - 1)) (some s)
    else (some s, [])

/-- Model of `navigatePrevious()` (app.js:1051): clamp at index 0. -/
def navigatePrevious : Option Session → Option Session × List Msg
  | none => (none, [])
  | some s =>
    if s.images.length = 0 then (some s, [])
    else if max (s.current_index - 1) 0 ≠ s.current_index then
      navigateToIndex (max (s.current_index - 1) 0) (some s)
    else (some s, [])

/-- The field writes of `labelImage` (app.js:434-436): label becomes the class
index, class name the corresponding class list entry, deletion flag cleared. -/
def labeledImage (img : ImageInfo) (classes : List String) (classIndex : Int) : ImageInfo :=
  { img with label := some classIndex, class_name := getCls classes classIndex,
             marked_for_deletion := false }

/-- The field writes of `deleteImage` (app.js:463-465): deletion flag set,
label and class name cleared. -/
def deletedImage (img : ImageInfo) : ImageInfo :=
  { img with marked_for_deletion := true, label := none, class_name := none }

/-- The optimistic mutation step of `labelImage`: the current image is
overwritten in place in the session image list. -/
def optimisticLabel (s : Session) (img : ImageInfo) (classIndex : Int) : Session :=
  { s with images := setImg s.images s.current_index (labeledImage img s.classes classIndex) }

/-- The optimistic mutation step of `deleteImage`. -/
def optimisticDelete (s : Session) (img : ImageInfo) : Session :=
  { s with images := setImg s.images s.current_index (deletedImage img) }

/-- Model of `labelImage(classIndex)` (app.js:427): optimistic local mutation, cursor
advance, then the `label` intent message. -/
def labelImage (classIndex : Int) : Option Session → Option Session × List Msg
  | none => (none, [])
  | some s =>
    match getImg s.images s.current_index with
    | none => (some s, [])
    | some img =>
      ((navigateNext (some (optimisticLabel s img classIndex))).1,
       (navigateNext (some (optimisticLabel s img classIndex))).2 ++ [Msg.label img.id classIndex])

/-- Model of `deleteImage()` (app.js:457): symmetric optimistic mutation, cursor
advance, then the `delete` intent message. -/
def deleteImage : Option Session → Option Session × List Msg
  | none => (none, [])
  | some s =>
    match getImg s.images s.current_index with
    | none => (some s, [])
    | some img =>
      ((navigateNext (some (optimisticDelete s img))).1,
       (navigateNext (some (optimisticDelete s img))).2 ++ [Msg.delete img.id])

/-- Payload of an `image_labeled` broadcast (app.js:679): the server-provided
authoritative values.  The code writes them verbatim, whatever they are. -/
structure LabeledPayload where
  image_id : String
  class_index : Int
  class_name : Option String
deriving DecidableEq, Repr

/-- Payload of an `image_deleted` broadcast (app.js:696). -/
structure DeletedPayload where
  image_id : String
deriving DecidableEq, Repr

/-- The field writes of `handleImageLabeled` (app.js:683-685). -/
def serverLabeledImage (p : LabeledPayload) (img : ImageInfo) : ImageInfo :=
  { img with label := some p.class_index, class_name := p.class_name,
             marked_for_deletion := false }

/-- The field writes of `handleImageDeleted` (app.js:699-701). -/
def serverDeletedImage (img : ImageInfo) : ImageInfo :=
  { img with marked_for_deletion := true, label := none, class_name := none }

/-- Model of `session.images.find(img => img.id === payload.image_id)` followed by the
in-place mutation: the first image whose id matches is overwritten, the rest
of the list is untouched. -/
def applyLabeled (p : LabeledPayload) : List ImageInfo → List ImageInfo
  | [] => []
  | img :: rest =>
    if img.id == p.image_id then serverLabeledImage p img :: rest
    else img :: applyLabeled p rest

/-- First-match in-place mutation of `handleImageDeleted`. -/
def applyDeleted (q : DeletedPayload) : List ImageInfo → List ImageInfo
  | [] => []
  | img :: rest =>
    if img.id == q.image_id then serverDeletedImage img :: rest
    else img :: applyDeleted q rest

/-- Model of `handleImageLabeled(payload)` (app.js:679): overwrite the matching image
with the server-provided values.  Sends nothing and does not move the cursor
(the remaining calls are UI refreshes). -/
def handleImageLabeled (p : LabeledPayload) : Option Session → Option Session
  | none => none
  | some s => some { s with images := applyLabeled p s.images }

/-- Model of `handleImageDeleted(payload)` (app.js:696). -/
def handleImageDeleted (q : DeletedPayload) : Option Session → Option Session
  | none => none
  | some s => some { s with images := applyDeleted q s.images }

/-- Mutual exclusion of label and delete for a single image: not both a
non-null label and the deletion flag. -/
def imgExclOk (img : ImageInfo) : Bool :=
  img.label == none || !img.marked_for_deletion

/-- Label validity for a single image: a non-null label is a valid index into
the class list. -/
def imgLabelOk (classes : List String) (img : ImageInfo) : Bool :=
  match img.label with
  | none => true
  | some i => decide (0 ≤ i) && decide (i < (classes.length : Int))

/-- Session-wide mutual-exclusion invariant. -/
def exclInv (s : Session) : Bool := s.images.all imgExclOk

/-- Session-wide label-validity invariant. -/
def labelInv (s : Session) : Bool := s.images.all (fun img => imgLabelOk s.classes img)

/-- Model of `handleClassKey(keyNumber)` (app.js:949): converts the pressed digit to a
class index (key 1-9 to index 0-8, key 0 to `min(9, classes.length - 1)`),
rejects an index at or beyond the class-list length with a warning toast, and
otherwise hands the index to `labelImage`.  The returned value is the class
index passed to `labelImage`, `none` when only the warning is shown. -/
def handleClassKey (classes : List String) (keyNumber : Nat) : Option Int :=
  let classIndex : Int :=
    if keyNumber = 0 then min 9 ((classes.length : Int) - 1) else (keyNumber : Int) - 1
  if classIndex ≥ (classes.length : Int) then none else some classIndex

/-- The overlay names of `this.activeOverlay` (app.js:140). -/
inductive Overlay where
  | help
  | stats
  | commit
deriving DecidableEq, Repr

/-- A commit preview as returned by `GET /changes/preview` (the
`PreviewSummary` JSDoc typedef, counts only). -/
structure Preview where
  total_changes : Nat
  moves : Nat
  deletes : Nat
deriving DecidableEq, Repr

/-- The UI state the commit flow reads and writes: the active overlay and the
cached commit preview (app.js:140-146). -/
structure UiState where
  activeOverlay : Option Overlay
  commitPreview : Option Preview
deriving DecidableEq, Repr

/-- The events that can touch the commit flow: `showCommitModal` with the
outcome of its preview fetch (`none` models a failed fetch, in which case
`this.commitPreview` keeps its old value), `confirmCommit` (reached from the
Enter key while the commit overlay is open and from the confirm button),
`toggleHelp`, `toggleStats`, and the various paths that call
`closeOverlay`. -/
inductive UiEvent where
  | showCommitModal (fetched : Option Preview)
  | confirmCommit
  | toggleHelp
  | toggleStats
  | closeOverlay
deriving DecidableEq, Repr

/-- The network requests of the commit flow: the `POST /changes/commit` that
`executeCommit` issues. -/
inductive Req where
  | commitPost
deriving DecidableEq, Repr

/-- Model of `openOverlay(name)` (app.js:1507): closes any open overlay, then records
the new one. -/
def openOverlay (o : Overlay) (s : UiState) : UiState := { s with activeOverlay := some o }

/-- Model of `closeOverlay()` (app.js:1527). -/
def closeOverlay (s : UiState) : UiState := { s with activeOverlay := none }

/-- One step of the commit flow.  `showCommitModal` (app.js:1467) caches the
fetched preview, returns with only a toast when it reports zero total
changes, and opens the commit overlay otherwise; `confirmCommit`
(app.js:1490) returns unless the commit overlay is active and otherwise
issues the commit request via `executeCommit`; the help and stats toggles
and `closeOverlay` never issue requests. -/
def uiStep (s : UiState) (e : UiEvent) : UiState × List Req :=
  match e with
  | UiEvent.showCommitModal none => (s, [])
  | UiEvent.showCommitModal (some p) =>
    if p.total_changes = 0 then ({ s with commitPreview := some p }, [])
    else (openOverlay Overlay.commit { s with commitPreview := some p }, [])
  | UiEvent.confirmCommit =>
    if s.activeOverlay = some Overlay.commit then (s, [Req.commitPost]) else (s, [])
  | UiEvent.toggleHelp =>
    if s.activeOverlay = some Overlay.help then (closeOverlay s, [])
    else (openOverlay Overlay.help s, [])
  | UiEvent.toggleStats =>
    if s.activeOverlay = some Overlay.stats then (closeOverlay s, [])
    else (openOverlay Overlay.stats s, [])
  | UiEvent.closeOverlay => (closeOverlay s, [])

/-- The UI state at construction time (app.js:140-146): no overlay, no cached
preview. -/
def uiInit : UiState := { activeOverlay := none, commitPreview := none }

/-- The UI state after a sequence of commit-flow events from construction. -/
def uiRun (es : List UiEvent) : UiState := es.foldl (fun t e => (uiStep t e).1) uiInit

/-- The constant `CONFIG.WS_RECONNECT_DELAYS` (app.js:84). -/
def WS_RECONNECT_DELAYS : List Nat := [1000, 2000, 4000, 8000, 16000, 30000]

/-- The connection-lifecycle state: the reconnect attempt counter, the
degraded-connectivity indicator, and the delay of the pending reconnect
timer, if any. -/
structure WsState where
  wsReconnectAttempt : Nat
  indicatorShown : Bool
  pendingDelay : Option Nat
deriving DecidableEq, Repr

/-- Model of `scheduleReconnect()` (app.js:562): shows the connection-status indicator
and arms a timer with delay `delays[min(attempt, delays.length - 1)]`. -/
def scheduleReconnect (s : WsState) : WsState :=
  { s with indicatorShown := true,
           pendingDelay := some (WS_RECONNECT_DELAYS.getD
             (min s.wsReconnectAttempt (WS_RECONNECT_DELAYS.length - 1)) 0) }

/-- The `ws.onclose` handler (app.js:543): schedules reconnection. -/
def wsOnClose (s : WsState) : WsState := scheduleReconnect s

/-- The reconnect timer firing (app.js:570-573): increments the attempt
counter and re-runs `connectWebSocket`, which clears the pending timer. -/
def reconnectTimerFire (s : WsState) : WsState :=
  { s with wsReconnectAttempt := s.wsReconnectAttempt + 1, pendingDelay := none }

/-- The `ws.onopen` handler (app.js:527): resets the attempt counter to 0 and
hides the indicator. -/
def wsOnOpen (s : WsState) : WsState :=
  { s with wsReconnectAttempt := 0, indicatorShown := false }

/-- One failed reconnection cycle: a close followed by the timer firing. -/
def closeFire (s : WsState) : WsState := reconnectTimerFire (wsOnClose s)

/-- The connection state at construction time (app.js:129-132). -/
def wsInit : WsState :=
  { wsReconnectAttempt := 0, indicatorShown := false, pendingDelay := none }

/-- Example fixture: a commit preview with two pending changes. -/
def pvEx : Preview := { total_changes := 2, moves := 1, deletes := 1 }

/-- The constant `CONFIG.PREFETCH_COUNT` (app.js:75). -/
def PREFETCH_COUNT : Nat := 3

/-- The constant `CONFIG.CACHE_MAX_SIZE` (app.js:78). -/
def CACHE_MAX_SIZE : Nat := 10

/-- Model of `cleanImageCache()` (app.js:1219): while the cache exceeds the capacity,
delete the first key of the `Map` — JavaScript `Map` iterates in insertion
order, so the cache is a key list in insertion order and the first key is the
earliest inserted. -/
def cleanImageCache (cache : List String) : List String :=
  if h : CACHE_MAX_SIZE < cache.length then cleanImageCache cache.tail else cache
termination_by cache.length
decreasing_by
  rw [List.length_tail]
  omega

/-- Model of `prefetchImage(imageId)` (app.js:1197): skip when the id is already cached
or already being fetched; otherwise record it in the in-flight set and start
the request.  Returns the new in-flight set and the started fetch, if any. -/
def prefetchImage (cache inflight : List String) (id : String) :
    List String × Option String :=
  if cache.contains id || inflight.contains id then (inflight, none)
  else (id :: inflight, some id)

/-- Model of `prefetchImage` applied to each candidate id in turn, threading the
in-flight set and collecting the started fetches in order. -/
def prefetchRun (cache : List String) : List String → List String → List String × List String
  | inflight, [] => (inflight, [])
  | inflight, id :: rest =>
    ((prefetchRun cache (prefetchImage cache inflight id).1 rest).1,
     (prefetchImage cache inflight id).2.toList ++
       (prefetchRun cache (prefetchImage cache inflight id).1 rest).2)

/-- One candidate of the prefetch loop (app.js:1177-1181): the image id at
`currentIndex + i`, guarded by `index < images.length`. -/
def candidateAt (images : List ImageInfo) (idx : Int) : Option String :=
  if idx < (images.length : Int) then (getImg images idx).map ImageInfo.id else none

/-- The ids `prefetchImages` hands to `prefetchImage` (app.js:1176-1187): the
next `PREFETCH_COUNT` indices after the cursor, truncated at the end of the
list, then the immediately preceding index when the cursor is positive. -/
def prefetchCandidates (images : List ImageInfo) (ci : Int) : List String :=
  (List.range PREFETCH_COUNT).filterMap (fun k : Nat => candidateAt images (ci + (k : Int) + 1)) ++
  (if 0 < ci then ((getImg images (ci - 1)).map ImageInfo.id).toList else [])

/-- Model of `prefetchImages()` (app.js:1171): early return when there is no session
image; otherwise prefetch the candidate window and finally clean the cache.
Result: (cache after cleaning, in-flight set, started fetches).  Fetch
completions land in the cache asynchronously (img.onload) and are not part of
this synchronous step. -/
def prefetchImages (s : Session) (cache inflight : List String) :
    List String × List String × List String :=
  if s.images.length = 0 then (cache, inflight, [])
  else (cleanImageCache cache,
        (prefetchRun cache inflight (prefetchCandidates s.images s.current_index)).1,
        (prefetchRun cache inflight (prefetchCandidates s.images s.current_index)).2)

/-- Example fixture: eleven cached image ids, one over capacity. -/
def bigCache : List String :=
  ["i1", "i2", "i3", "i4", "i5", "i6", "i7", "i8", "i9", "i10", "i11"]

/-- Example fixture: a session whose image list is empty. -/
def emptySession : Session := { classes := ["cat"], images := [], current_index := 0 }

/-- The constant `CONFIG.DOUBLE_KEY_TIMEOUT` (app.js:90). -/
def DOUBLE_KEY_TIMEOUT : Nat := 300

/-- The key-combo state (app.js:153-157): `this.lastKey` and whether the
combo timeout is armed. -/
structure ComboState where
  lastKey : Option Char
  timerArmed : Bool
deriving DecidableEq, Repr

/-- The observable outcome of one `g` keypress: whether
`navigateToFirstInFolder` is invoked, and the delay of a newly armed combo
timer, if any. -/
structure ComboOut where
  navigateFirst : Bool
  armedDelay : Option Nat
deriving DecidableEq, Repr

/-- The combo state at construction time: idle. -/
def comboIdle : ComboState := { lastKey := none, timerArmed := false }

/-- Model of `handleGKey()` (app.js:975): when the previous key was already `g`, clear
the timeout, reset `lastKey` and navigate to the first image in the folder;
otherwise record `g` and arm a `DOUBLE_KEY_TIMEOUT` timer. -/
def handleGKey (s : ComboState) : ComboState × ComboOut :=
  if s.lastKey = some 'g' then
    ({ lastKey := none, timerArmed := false },
     { navigateFirst := true, armedDelay := none })
  else
    ({ lastKey := some 'g', timerArmed := true },
     { navigateFirst := false, armedDelay := some DOUBLE_KEY_TIMEOUT })

/-- The combo timeout firing (app.js:985-987): `lastKey` reset to null, the
timer is spent. -/
def comboTimeoutFire (_ : ComboState) : ComboState :=
  { lastKey := none, timerArmed := false }

/-- Any key other than `g` in `handleKeyDown` (app.js:777): no branch of the
handler writes `lastKey` or clears `keyComboTimeout`, so the combo state is
left untouched. -/
def handleOtherKeyCombo (s : ComboState) : ComboState := s

/-- The characters strictly before the last slash of a character list:
`none` when the list has no slash. -/
def folderOfAux : List Char → Option (List Char)
  | [] => none
  | c :: rest =>
    match folderOfAux rest with
    | some t => some (c :: t)
    | none => if c = '/' then some [] else none

/-- Model of `id.substring(0, id.lastIndexOf('/')) || ''` (app.js:997): everything
before the last slash, the empty string when there is none (then
`lastIndexOf` is -1 and `substring(0, -1)` is empty, so `|| ''` kicks in). -/
def folderOf (id : String) : String :=
  match folderOfAux id.data with
  | some t => String.mk t
  | none => ""

/-- Model of `navigateToFirstInFolder()` (app.js:994): scan the image list from index
0 and navigate to the first image whose folder matches the folder of the
current image. -/
def navigateToFirstInFolder : Option Session → Option Session × List Msg
  | none => (none, [])
  | some s =>
    match getImg s.images s.current_index with
    | none => (some s, [])
    | some cur =>
      match s.images.findIdx? (fun img => folderOf img.id == folderOf cur.id) with
      | none => (some s, [])
      | some i => navigateToIndex (i : Int) (some s)

/-- Example fixture: an unlabeled image at the repository root. -/
def imgA : ImageInfo := { id := "a.jpg", filename := "a.jpg", label := none,
                          class_name := none, marked_for_deletion := false }

/-- Example fixture: an unlabeled image inside a subfolder. -/
def imgB : ImageInfo := { id := "sub/b.jpg", filename := "b.jpg", label := none,
                          class_name := none, marked_for_deletion := false }

/-- Example fixture: a two-image session with classes cat and dog. -/
def exSession : Session :=
  { classes := ["cat", "dog"], images := [imgA, imgB], current_index := 0 }

/-- Example fixture: an in-range `image_labeled` broadcast payload. -/
def pEx : LabeledPayload := { image_id := "a.jpg", class_index := 1, class_name := some "dog" }

/-- Example fixture: an `image_deleted` broadcast payload. -/
def qEx : DeletedPayload := { image_id := "a.jpg" }

/-- Example fixture: an `image_labeled` broadcast whose class index 5 is out
of range for the two-class session. -/
def pBad : LabeledPayload := { image_id := "a.jpg", class_index := 5, class_name := some "dog" }

end SwiftLabel

namespace SwiftLabel

theorem getImg_some {l : List ImageInfo} {i : Int} {x : ImageInfo}
    (h : getImg l i = some x) :
    0 ≤ i ∧ i < (l.length : Int) ∧ l[i.toNat]? = some x := by
  unfold getImg at h
  split at h
  · next hc => exact ⟨hc.1, hc.2, h⟩
  · exact absurd h (by simp)

theorem length_setImg (l : List ImageInfo) (i : Int) (x : ImageInfo) :
    (setImg l i x).length = l.length := by
  unfold setImg; split <;> simp

theorem getImg_setImg_self {l : List ImageInfo} {i : Int} (x : ImageInfo)
    (h0 : 0 ≤ i) (h1 : i < (l.length : Int)) :
    getImg (setImg l i x) i = some x := by
  unfold setImg
  rw [if_pos ⟨h0, h1⟩]
  unfold getImg
  rw [List.length_set, if_pos ⟨h0, h1⟩]
  have hn : i.toNat < l.length := by omega
  simp [List.getElem?_set, hn]

theorem navigateNext_some {s : Session} (h0 : 0 ≤ s.current_index)
    (h1 : s.current_index < (s.images.length : Int)) :
    navigateNext (some s) =
      (some { s with current_index := min (s.current_index + 1) ((s.images.length : Int) - 1) },
       if min (s.current_index + 1) ((s.images.length : Int) - 1) = s.current_index then []
       else [Msg.navigate (min (s.current_index + 1) ((s.images.length : Int) - 1))]) := by
  have hlen : ¬s.images.length = 0 := by omega
  simp only [navigateNext]
  rw [if_neg hlen]
  by_cases hm : min (s.current_index + 1) ((s.images.length : Int) - 1) = s.current_index
  · rw [if_neg (by omega), if_pos hm]
    have hs : { s with current_index := min (s.current_index + 1) ((s.images.length : Int) - 1) } = s := by
      cases s; simp_all
    rw [hs]
  · rw [if_pos hm]
    simp only [navigateToIndex]
    rw [if_neg (by omega), if_neg hm]

theorem navigatePrevious_some {s : Session} (h0 : 0 ≤ s.current_index)
    (h1 : s.current_index < (s.images.length : Int)) :
    navigatePrevious (some s) =
      (some { s with current_index := max (s.current_index - 1) 0 },
       if max (s.current_index - 1) 0 = s.current_index then []
       else [Msg.navigate (max (s.current_index - 1) 0)]) := by
  have hlen : ¬s.images.length = 0 := by omega
  simp only [navigatePrevious]
  rw [if_neg hlen]
  by_cases hm : max (s.current_index - 1) 0 = s.current_index
  · rw [if_neg (by omega), if_pos hm]
    have hs : { s with current_index := max (s.current_index - 1) 0 } = s := by
      cases s; simp_all
    rw [hs]
  · rw [if_pos hm]
    simp only [navigateToIndex]
    rw [if_neg (by omega), if_neg hm]

theorem labelImage_some {s : Session} {img : ImageInfo} (c : Int)
    (h : getImg s.images s.current_index = some img) :
    labelImage c (some s) =
      ((navigateNext (some (optimisticLabel s img c))).1,
       (navigateNext (some (optimisticLabel s img c))).2 ++ [Msg.label img.id c]) := by
  simp only [labelImage]
  split
  · next heq => rw [h] at heq; cases heq
  · next img2 heq =>
    rw [h] at heq
    injection heq with h2
    subst h2
    rfl

theorem deleteImage_some {s : Session} {img : ImageInfo}
    (h : getImg s.images s.current_index = some img) :
    deleteImage (some s) =
      ((navigateNext (some (optimisticDelete s img))).1,
       (navigateNext (some (optimisticDelete s img))).2 ++ [Msg.delete img.id]) := by
  simp only [deleteImage]
  split
  · next heq => rw [h] at heq; cases heq
  · next img2 heq =>
    rw [h] at heq
    injection heq with h2
    subst h2
    rfl

theorem navigateNext_optimisticLabel {s : Session} {img : ImageInfo} (c : Int)
    (h0 : 0 ≤ s.current_index) (h1 : s.current_index < (s.images.length : Int)) :
    navigateNext (some (optimisticLabel s img c)) =
      (some { classes := s.classes,
              images := setImg s.images s.current_index (labeledImage img s.classes c),
              current_index := min (s.current_index + 1) ((s.images.length : Int) - 1) },
       if min (s.current_index + 1) ((s.images.length : Int) - 1) = s.current_index then []
       else [Msg.navigate (min (s.current_index + 1) ((s.images.length : Int) - 1))]) := by
  have hlen : ((optimisticLabel s img c).images.length : Int) = (s.images.length : Int) := by
    simp [optimisticLabel, length_setImg]
  have h2 := navigateNext_some (s := optimisticLabel s img c) h0 (by rw [hlen]; exact h1)
  rw [hlen] at h2
  exact h2

theorem navigateNext_optimisticDelete {s : Session} {img : ImageInfo}
    (h0 : 0 ≤ s.current_index) (h1 : s.current_index < (s.images.length : Int)) :
    navigateNext (some (optimisticDelete s img)) =
      (some { classes := s.classes,
              images := setImg s.images s.current_index (deletedImage img),
              current_index := min (s.current_index + 1) ((s.images.length : Int) - 1) },
       if min (s.current_index + 1) ((s.images.length : Int) - 1) = s.current_index then []
       else [Msg.navigate (min (s.current_index + 1) ((s.images.length : Int) - 1))]) := by
  have hlen : ((optimisticDelete s img).images.length : Int) = (s.images.length : Int) := by
    simp [optimisticDelete, length_setImg]
  have h2 := navigateNext_some (s := optimisticDelete s img) h0 (by rw [hlen]; exact h1)
  rw [hlen] at h2
  exact h2

/-- C1: on a session with a current image, `labelImage` applies the optimistic
mutation to the replica copy (label set to the class index, class name to the
corresponding class-list entry, deletion flag cleared), advances the cursor to
the next image, and only then dispatches the `label` intent as the final
emitted message; `deleteImage` does the symmetric update (deletion flag set,
label and class name null) with the same ordering. -/
theorem labelImage_deleteImage_optimistic (s : Session) (img : ImageInfo) (c : Int)
    (h : getImg s.images s.current_index = some img) :
    (∃ s2,
      (labelImage c (some s)).1 = some s2 ∧
      getImg s2.images s.current_index =
        some { img with label := some c, class_name := getCls s.classes c,
                        marked_for_deletion := false } ∧
      s2.current_index = min (s.current_index + 1) ((s.images.length : Int) - 1) ∧
      s2.classes = s.classes ∧
      (labelImage c (some s)).2.getLast? = some (Msg.label img.id c)) ∧
    (∃ s3,
      (deleteImage (some s)).1 = some s3 ∧
      getImg s3.images s.current_index =
        some { img with marked_for_deletion := true, label := none, class_name := none } ∧
      s3.current_index = min (s.current_index + 1) ((s.images.length : Int) - 1) ∧
      s3.classes = s.classes ∧
      (deleteImage (some s)).2.getLast? = some (Msg.delete img.id)) := by
  obtain ⟨h0, h1, _⟩ := getImg_some h
  constructor
  · rw [labelImage_some c h, navigateNext_optimisticLabel c h0 h1]
    refine ⟨_, rfl, ?_, rfl, rfl, by simp⟩
    exact getImg_setImg_self _ h0 h1
  · rw [deleteImage_some h, navigateNext_optimisticDelete h0 h1]
    refine ⟨_, rfl, ?_, rfl, rfl, by simp⟩
    exact getImg_setImg_self _ h0 h1

/-- C1 witness: the theorem instantiated on the concrete two-image session. -/
theorem labelImage_deleteImage_optimistic_witness :
    (∃ s2,
      (labelImage 0 (some exSession)).1 = some s2 ∧
      getImg s2.images exSession.current_index =
        some { imgA with label := some 0, class_name := getCls exSession.classes 0,
                         marked_for_deletion := false } ∧
      s2.current_index = min (exSession.current_index + 1) ((exSession.images.length : Int) - 1) ∧
      s2.classes = exSession.classes ∧
      (labelImage 0 (some exSession)).2.getLast? = some (Msg.label imgA.id 0)) ∧
    (∃ s3,
      (deleteImage (some exSession)).1 = some s3 ∧
      getImg s3.images exSession.current_index =
        some { imgA with marked_for_deletion := true, label := none, class_name := none } ∧
      s3.current_index = min (exSession.current_index + 1) ((exSession.images.length : Int) - 1) ∧
      s3.classes = exSession.classes ∧
      (deleteImage (some exSession)).2.getLast? = some (Msg.delete imgA.id)) :=
  labelImage_deleteImage_optimistic exSession imgA 0 (by decide)

/-- C9: on a non-empty session with an in-range cursor, `navigateNext` and
`navigatePrevious` clamp the cursor to the ends of the image list and never
leave `[0, images.length - 1]`; `navigateToIndex` with an out-of-range index,
or with no session loaded, changes nothing and sends no message. -/
theorem navigation_stays_in_bounds :
    (∀ s : Session, 0 ≤ s.current_index → s.current_index < (s.images.length : Int) →
      (∃ s2, (navigateNext (some s)).1 = some s2 ∧ s2.images = s.images ∧
        s2.current_index = min (s.current_index + 1) ((s.images.length : Int) - 1) ∧
        0 ≤ s2.current_index ∧ s2.current_index < (s2.images.length : Int)) ∧
      (∃ s3, (navigatePrevious (some s)).1 = some s3 ∧ s3.images = s.images ∧
        s3.current_index = max (s.current_index - 1) 0 ∧
        0 ≤ s3.current_index ∧ s3.current_index < (s3.images.length : Int))) ∧
    (∀ (s : Session) (i : Int), i < 0 ∨ (s.images.length : Int) ≤ i →
      navigateToIndex i (some s) = (some s, [])) ∧
    (∀ i : Int, navigateToIndex i none = (none, [])) := by
  refine ⟨fun s h0 h1 => ⟨?_, ?_⟩, fun s i hi => ?_, fun i => rfl⟩
  · rw [navigateNext_some h0 h1]
    refine ⟨_, rfl, rfl, rfl, ?_, ?_⟩
    · show (0 : Int) ≤ min (s.current_index + 1) ((s.images.length : Int) - 1)
      omega
    · show min (s.current_index + 1) ((s.images.length : Int) - 1) < (s.images.length : Int)
      omega
  · rw [navigatePrevious_some h0 h1]
    refine ⟨_, rfl, rfl, rfl, ?_, ?_⟩
    · show (0 : Int) ≤ max (s.current_index - 1) 0
      omega
    · show max (s.current_index - 1) 0 < (s.images.length : Int)
      omega
  · simp only [navigateToIndex]
    rw [if_pos (by omega)]

/-- C9 witness: the theorem instantiated on the concrete two-image session and
the out-of-range index 5. -/
theorem navigation_stays_in_bounds_witness :
    ((∃ s2, (navigateNext (some exSession)).1 = some s2 ∧ s2.images = exSession.images ∧
        s2.current_index = min (exSession.current_index + 1) ((exSession.images.length : Int) - 1) ∧
        0 ≤ s2.current_index ∧ s2.current_index < (s2.images.length : Int)) ∧
      (∃ s3, (navigatePrevious (some exSession)).1 = some s3 ∧ s3.images = exSession.images ∧
        s3.current_index = max (exSession.current_index - 1) 0 ∧
        0 ≤ s3.current_index ∧ s3.current_index < (s3.images.length : Int))) ∧
    navigateToIndex 5 (some exSession) = (some exSession, []) ∧
    navigateToIndex 5 none = (none, []) :=
  ⟨navigation_stays_in_bounds.1 exSession (by decide) (by decide),
   navigation_stays_in_bounds.2.1 exSession 5 (by decide),
   navigation_stays_in_bounds.2.2 5⟩

end SwiftLabel

namespace SwiftLabel

theorem serverLabeledImage_id (p : LabeledPayload) (img : ImageInfo) :
    (serverLabeledImage p img).id = img.id := rfl

theorem serverDeletedImage_id (img : ImageInfo) :
    (serverDeletedImage img).id = img.id := rfl

theorem applyLabeled_idem (p : LabeledPayload) :
    ∀ l : List ImageInfo, applyLabeled p (applyLabeled p l) = applyLabeled p l := by
  intro l
  induction l with
  | nil => rfl
  | cons img rest ih =>
    by_cases h : img.id == p.image_id
    · simp only [applyLabeled, h, if_true, serverLabeledImage_id]
      rfl
    · simp only [applyLabeled, if_neg h, ih]

theorem applyDeleted_idem (q : DeletedPayload) :
    ∀ l : List ImageInfo, applyDeleted q (applyDeleted q l) = applyDeleted q l := by
  intro l
  induction l with
  | nil => rfl
  | cons img rest ih =>
    by_cases h : img.id == q.image_id
    · simp only [applyDeleted, h, if_true, serverDeletedImage_id]
      rfl
    · simp only [applyDeleted, if_neg h, ih]

theorem find?_applyLabeled (p : LabeledPayload) :
    ∀ (l : List ImageInfo) (img2 : ImageInfo),
      (applyLabeled p l).find? (fun i => i.id == p.image_id) = some img2 →
      img2.label = some p.class_index ∧ img2.class_name = p.class_name ∧
        img2.marked_for_deletion = false := by
  intro l
  induction l with
  | nil => intro img2 h; cases h
  | cons img rest ih =>
    intro img2 h
    by_cases hm : img.id == p.image_id
    · simp only [applyLabeled, hm, if_true] at h
      rw [List.find?_cons_of_pos] at h
      · injection h with h2
        subst h2
        exact ⟨rfl, rfl, rfl⟩
      · simpa [serverLabeledImage_id] using hm
    · simp only [applyLabeled, if_neg hm] at h
      rw [List.find?_cons_of_neg] at h
      · exact ih img2 h
      · simpa using hm

theorem find?_applyDeleted (q : DeletedPayload) :
    ∀ (l : List ImageInfo) (img2 : ImageInfo),
      (applyDeleted q l).find? (fun i => i.id == q.image_id) = some img2 →
      img2.marked_for_deletion = true ∧ img2.label = none ∧ img2.class_name = none := by
  intro l
  induction l with
  | nil => intro img2 h; cases h
  | cons img rest ih =>
    intro img2 h
    by_cases hm : img.id == q.image_id
    · simp only [applyDeleted, hm, if_true] at h
      rw [List.find?_cons_of_pos] at h
      · injection h with h2
        subst h2
        exact ⟨rfl, rfl, rfl⟩
      · simpa [serverDeletedImage_id] using hm
    · simp only [applyDeleted, if_neg hm] at h
      rw [List.find?_cons_of_neg] at h
      · exact ih img2 h
      · simpa using hm

/-- C3: reconciliation is idempotent — applying `handleImageLabeled` (or
`handleImageDeleted`) twice with the same payload equals applying it once —
and authoritative: after the handler runs, the image matching the payload id
carries exactly the server-provided label, class name and deletion flag,
whatever the local optimistic guess was. -/
theorem reconciliation_idempotent_authoritative :
    (∀ (p : LabeledPayload) (r : Option Session),
      handleImageLabeled p (handleImageLabeled p r) = handleImageLabeled p r) ∧
    (∀ (q : DeletedPayload) (r : Option Session),
      handleImageDeleted q (handleImageDeleted q r) = handleImageDeleted q r) ∧
    (∀ (p : LabeledPayload) (s s2 : Session) (img2 : ImageInfo),
      handleImageLabeled p (some s) = some s2 →
      s2.images.find? (fun i => i.id == p.image_id) = some img2 →
      img2.label = some p.class_index ∧ img2.class_name = p.class_name ∧
        img2.marked_for_deletion = false) ∧
    (∀ (q : DeletedPayload) (s s2 : Session) (img2 : ImageInfo),
      handleImageDeleted q (some s) = some s2 →
      s2.images.find? (fun i => i.id == q.image_id) = some img2 →
      img2.marked_for_deletion = true ∧ img2.label = none ∧ img2.class_name = none) := by
  refine ⟨fun p r => ?_, fun q r => ?_, fun p s s2 img2 hs hf => ?_, fun q s s2 img2 hs hf => ?_⟩
  · cases r with
    | none => rfl
    | some s => simp only [handleImageLabeled, applyLabeled_idem]
  · cases r with
    | none => rfl
    | some s => simp only [handleImageDeleted, applyDeleted_idem]
  · simp only [handleImageLabeled] at hs
    injection hs with h2
    subst h2
    exact find?_applyLabeled p s.images img2 hf
  · simp only [handleImageDeleted] at hs
    injection hs with h2
    subst h2
    exact find?_applyDeleted q s.images img2 hf

/-- C3 witness: the theorem instantiated on the concrete session and a
concrete labeled and deleted broadcast. -/
theorem reconciliation_idempotent_authoritative_witness :
    ((serverLabeledImage pEx imgA).label = some pEx.class_index ∧
     (serverLabeledImage pEx imgA).class_name = pEx.class_name ∧
     (serverLabeledImage pEx imgA).marked_for_deletion = false) ∧
    ((serverDeletedImage imgA).marked_for_deletion = true ∧
     (serverDeletedImage imgA).label = none ∧
     (serverDeletedImage imgA).class_name = none) :=
  ⟨reconciliation_idempotent_authoritative.2.2.1 pEx exSession
      { exSession with images := applyLabeled pEx exSession.images }
      (serverLabeledImage pEx imgA) rfl (by decide),
   reconciliation_idempotent_authoritative.2.2.2 qEx exSession
      { exSession with images := applyDeleted qEx exSession.images }
      (serverDeletedImage imgA) rfl (by decide)⟩

theorem mem_setImg {l : List ImageInfo} {i : Int} {y x : ImageInfo}
    (h : x ∈ setImg l i y) : x ∈ l ∨ x = y := by
  unfold setImg at h
  split at h
  · exact List.mem_or_eq_of_mem_set h
  · exact Or.inl h

theorem all_setImg {pred : ImageInfo → Bool} {l : List ImageInfo} {i : Int} {y : ImageInfo}
    (hl : l.all pred = true) (hy : pred y = true) : (setImg l i y).all pred = true := by
  rw [List.all_eq_true] at hl ⊢
  intro x hx
  rcases mem_setImg hx with h | h
  · exact hl x h
  · rw [h]; exact hy

theorem mem_applyLabeled {p : LabeledPayload} :
    ∀ {l : List ImageInfo} {x : ImageInfo}, x ∈ applyLabeled p l →
      x ∈ l ∨ ∃ y ∈ l, x = serverLabeledImage p y := by
  intro l
  induction l with
  | nil => intro x h; cases h
  | cons img rest ih =>
    intro x h
    by_cases hm : img.id == p.image_id
    · simp only [applyLabeled, hm, if_true] at h
      rcases List.mem_cons.1 h with h2 | h2
      · exact Or.inr ⟨img, List.mem_cons_self img rest, h2⟩
      · exact Or.inl (List.mem_cons_of_mem img h2)
    · simp only [applyLabeled, if_neg hm] at h
      rcases List.mem_cons.1 h with h2 | h2
      · exact Or.inl (h2 ▸ List.mem_cons_self img rest)
      · rcases ih h2 with h3 | ⟨y, hy, h3⟩
        · exact Or.inl (List.mem_cons_of_mem img h3)
        · exact Or.inr ⟨y, List.mem_cons_of_mem img hy, h3⟩

theorem mem_applyDeleted {q : DeletedPayload} :
    ∀ {l : List ImageInfo} {x : ImageInfo}, x ∈ applyDeleted q l →
      x ∈ l ∨ ∃ y ∈ l, x = serverDeletedImage y := by
  intro l
  induction l with
  | nil => intro x h; cases h
  | cons img rest ih =>
    intro x h
    by_cases hm : img.id == q.image_id
    · simp only [applyDeleted, hm, if_true] at h
      rcases List.mem_cons.1 h with h2 | h2
      · exact Or.inr ⟨img, List.mem_cons_self img rest, h2⟩
      · exact Or.inl (List.mem_cons_of_mem img h2)
    · simp only [applyDeleted, if_neg hm] at h
      rcases List.mem_cons.1 h with h2 | h2
      · exact Or.inl (h2 ▸ List.mem_cons_self img rest)
      · rcases ih h2 with h3 | ⟨y, hy, h3⟩
        · exact Or.inl (List.mem_cons_of_mem img h3)
        · exact Or.inr ⟨y, List.mem_cons_of_mem img hy, h3⟩

theorem labelImage_noCurrent {s : Session} (c : Int)
    (h : getImg s.images s.current_index = none) :
    labelImage c (some s) = (some s, []) := by
  simp only [labelImage]
  split
  · rfl
  · next img heq => rw [h] at heq; cases heq

theorem deleteImage_noCurrent {s : Session}
    (h : getImg s.images s.current_index = none) :
    deleteImage (some s) = (some s, []) := by
  simp only [deleteImage]
  split
  · rfl
  · next img heq => rw [h] at heq; cases heq

theorem imgExclOk_labeledImage (img : ImageInfo) (classes : List String) (c : Int) :
    imgExclOk (labeledImage img classes c) = true := rfl

theorem imgExclOk_deletedImage (img : ImageInfo) : imgExclOk (deletedImage img) = true := rfl

theorem imgExclOk_serverLabeledImage (p : LabeledPayload) (img : ImageInfo) :
    imgExclOk (serverLabeledImage p img) = true := rfl

theorem imgExclOk_serverDeletedImage (img : ImageInfo) :
    imgExclOk (serverDeletedImage img) = true := rfl

/-- C2 counterexample: the claimed invariant fails as stated.  Starting from a
session satisfying both halves of the invariant, `handleImageLabeled` applied
to a broadcast whose class index 5 is out of range for the two-class session
writes the out-of-range label verbatim, so label validity is violated after a
replica operation. -/
theorem replica_invariant_counterexample :
    exclInv exSession = true ∧ labelInv exSession = true ∧
    ∃ s2, handleImageLabeled pBad (some exSession) = some s2 ∧ labelInv s2 = false := by
  refine ⟨by decide, by decide, ⟨_, rfl, by decide⟩⟩

/-- C2 (amended): mutual exclusion of label and delete is preserved by every
replica operation unconditionally, and label validity is preserved provided
the class index handed to `labelImage`, respectively the `class_index` of an
`image_labeled` broadcast, is a valid index into the class list. -/
theorem replica_invariants_preserved :
    (∀ (s : Session) (c : Int) (s2 : Session), exclInv s = true →
      (labelImage c (some s)).1 = some s2 → exclInv s2 = true) ∧
    (∀ (s s2 : Session), exclInv s = true →
      (deleteImage (some s)).1 = some s2 → exclInv s2 = true) ∧
    (∀ (p : LabeledPayload) (s s2 : Session), exclInv s = true →
      handleImageLabeled p (some s) = some s2 → exclInv s2 = true) ∧
    (∀ (q : DeletedPayload) (s s2 : Session), exclInv s = true →
      handleImageDeleted q (some s) = some s2 → exclInv s2 = true) ∧
    (∀ (s : Session) (c : Int) (s2 : Session), labelInv s = true →
      0 ≤ c → c < (s.classes.length : Int) →
      (labelImage c (some s)).1 = some s2 → labelInv s2 = true) ∧
    (∀ (s s2 : Session), labelInv s = true →
      (deleteImage (some s)).1 = some s2 → labelInv s2 = true) ∧
    (∀ (p : LabeledPayload) (s s2 : Session), labelInv s = true →
      0 ≤ p.class_index → p.class_index < (s.classes.length : Int) →
      handleImageLabeled p (some s) = some s2 → labelInv s2 = true) ∧
    (∀ (q : DeletedPayload) (s s2 : Session), labelInv s = true →
      handleImageDeleted q (some s) = some s2 → labelInv s2 = true) := by
  have hexL : ∀ (s : Session) (c : Int) (s2 : Session), exclInv s = true →
      (labelImage c (some s)).1 = some s2 → exclInv s2 = true := by
    intro s c s2 hinv hres
    rcases hgi : getImg s.images s.current_index with _ | img
    · rw [labelImage_noCurrent c hgi] at hres
      injection hres with h2
      rw [← h2]; exact hinv
    · obtain ⟨h0, h1, _⟩ := getImg_some hgi
      rw [labelImage_some c hgi, navigateNext_optimisticLabel c h0 h1] at hres
      injection hres with h2
      rw [← h2]
      exact all_setImg hinv (imgExclOk_labeledImage img s.classes c)
  have hexD : ∀ (s s2 : Session), exclInv s = true →
      (deleteImage (some s)).1 = some s2 → exclInv s2 = true := by
    intro s s2 hinv hres
    rcases hgi : getImg s.images s.current_index with _ | img
    · rw [deleteImage_noCurrent hgi] at hres
      injection hres with h2
      rw [← h2]; exact hinv
    · obtain ⟨h0, h1, _⟩ := getImg_some hgi
      rw [deleteImage_some hgi, navigateNext_optimisticDelete h0 h1] at hres
      injection hres with h2
      rw [← h2]
      exact all_setImg hinv (imgExclOk_deletedImage img)
  have hexHL : ∀ (p : LabeledPayload) (s s2 : Session), exclInv s = true →
      handleImageLabeled p (some s) = some s2 → exclInv s2 = true := by
    intro p s s2 hinv hres
    simp only [handleImageLabeled] at hres
    injection hres with h2
    rw [← h2]
    unfold exclInv at hinv ⊢
    rw [List.all_eq_true] at hinv ⊢
    intro x hx
    rcases mem_applyLabeled hx with h3 | ⟨y, _, h3⟩
    · exact hinv x h3
    · rw [h3]; exact imgExclOk_serverLabeledImage p y
  have hexHD : ∀ (q : DeletedPayload) (s s2 : Session), exclInv s = true →
      handleImageDeleted q (some s) = some s2 → exclInv s2 = true := by
    intro q s s2 hinv hres
    simp only [handleImageDeleted] at hres
    injection hres with h2
    rw [← h2]
    unfold exclInv at hinv ⊢
    rw [List.all_eq_true] at hinv ⊢
    intro x hx
    rcases mem_applyDeleted hx with h3 | ⟨y, _, h3⟩
    · exact hinv x h3
    · rw [h3]; exact imgExclOk_serverDeletedImage y
  have hlabL : ∀ (s : Session) (c : Int) (s2 : Session), labelInv s = true →
      0 ≤ c → c < (s.classes.length : Int) →
      (labelImage c (some s)).1 = some s2 → labelInv s2 = true := by
    intro s c s2 hinv hc0 hc1 hres
    rcases hgi : getImg s.images s.current_index with _ | img
    · rw [labelImage_noCurrent c hgi] at hres
      injection hres with h2
      rw [← h2]; exact hinv
    · obtain ⟨h0, h1, _⟩ := getImg_some hgi
      rw [labelImage_some c hgi, navigateNext_optimisticLabel c h0 h1] at hres
      injection hres with h2
      rw [← h2]
      unfold labelInv at hinv ⊢
      exact all_setImg hinv (by simp [labeledImage, imgLabelOk]; omega)
  have hlabD : ∀ (s s2 : Session), labelInv s = true →
      (deleteImage (some s)).1 = some s2 → labelInv s2 = true := by
    intro s s2 hinv hres
    rcases hgi : getImg s.images s.current_index with _ | img
    · rw [deleteImage_noCurrent hgi] at hres
      injection hres with h2
      rw [← h2]; exact hinv
    · obtain ⟨h0, h1, _⟩ := getImg_some hgi
      rw [deleteImage_some hgi, navigateNext_optimisticDelete h0 h1] at hres
      injection hres with h2
      rw [← h2]
      unfold labelInv at hinv ⊢
      exact all_setImg hinv (by simp [deletedImage, imgLabelOk])
  have hlabHL : ∀ (p : LabeledPayload) (s s2 : Session), labelInv s = true →
      0 ≤ p.class_index → p.class_index < (s.classes.length : Int) →
      handleImageLabeled p (some s) = some s2 → labelInv s2 = true := by
    intro p s s2 hinv hc0 hc1 hres
    simp only [handleImageLabeled] at hres
    injection hres with h2
    rw [← h2]
    unfold labelInv at hinv ⊢
    rw [List.all_eq_true] at hinv ⊢
    intro x hx
    rcases mem_applyLabeled hx with h3 | ⟨y, _, h3⟩
    · exact hinv x h3
    · rw [h3]; simp [serverLabeledImage, imgLabelOk]; omega
  have hlabHD : ∀ (q : DeletedPayload) (s s2 : Session), labelInv s = true →
      handleImageDeleted q (some s) = some s2 → labelInv s2 = true := by
    intro q s s2 hinv hres
    simp only [handleImageDeleted] at hres
    injection hres with h2
    rw [← h2]
    unfold labelInv at hinv ⊢
    rw [List.all_eq_true] at hinv ⊢
    intro x hx
    rcases mem_applyDeleted hx with h3 | ⟨y, _, h3⟩
    · exact hinv x h3
    · rw [h3]; simp [serverDeletedImage, imgLabelOk]
  exact ⟨hexL, hexD, hexHL, hexHD, hlabL, hlabD, hlabHL, hlabHD⟩

/-- C2 (amended) witness: the theorem instantiated with the concrete session,
class index 1, and the concrete in-range broadcast payload. -/
theorem replica_invariants_preserved_witness :
    exclInv { classes := ["cat", "dog"],
              images := [{ id := "a.jpg", filename := "a.jpg", label := some 1,
                           class_name := some "dog", marked_for_deletion := false }, imgB],
              current_index := 1 } = true ∧
    labelInv { classes := ["cat", "dog"],
               images := [{ id := "a.jpg", filename := "a.jpg", label := some 1,
                            class_name := some "dog", marked_for_deletion := false }, imgB],
               current_index := 0 } = true :=
  ⟨replica_invariants_preserved.1 exSession 1 _ (by decide) (by decide),
   replica_invariants_preserved.2.2.2.2.2.2.1 pEx exSession _
     (by decide) (by decide) (by decide) (by decide)⟩

/-- C10: for a session with at least one class, key k in 1..9 yields class
index k-1 exactly when that is below the class count and otherwise only a
warning; key 0 yields `min 9 (classes.length - 1)`, always valid; every index
`handleClassKey` hands to `labelImage` is in range, and `labelImage` then
labels the current image with it. -/
theorem handleClassKey_in_range (classes : List String) (k : Nat)
    (hc : 1 ≤ classes.length) :
    (k ≠ 0 → ((k : Int) - 1 < (classes.length : Int) →
        handleClassKey classes k = some ((k : Int) - 1)) ∧
      ((classes.length : Int) ≤ (k : Int) - 1 → handleClassKey classes k = none)) ∧
    (k = 0 → handleClassKey classes k = some (min 9 ((classes.length : Int) - 1))) ∧
    (∀ i, handleClassKey classes k = some i → 0 ≤ i ∧ i < (classes.length : Int)) ∧
    (∀ (i : Int) (s : Session) (img : ImageInfo), handleClassKey classes k = some i →
      s.classes = classes → getImg s.images s.current_index = some img →
      ∃ s2, (labelImage i (some s)).1 = some s2 ∧
        getImg s2.images s.current_index = some (labeledImage img s.classes i)) := by
  have hck : ∀ j : Nat, handleClassKey classes j =
      (if (if j = 0 then min 9 ((classes.length : Int) - 1) else (j : Int) - 1) ≥
          (classes.length : Int)
       then none
       else some (if j = 0 then min 9 ((classes.length : Int) - 1) else (j : Int) - 1)) :=
    fun j => rfl
  refine ⟨fun hk => ⟨fun hlt => ?_, fun hge => ?_⟩, fun hk => ?_, fun i hi => ?_,
          fun i s img hi hcls hgi => ?_⟩
  · rw [hck, if_neg hk, if_neg (by omega)]
  · rw [hck, if_neg hk, if_pos (by omega)]
  · subst hk
    rw [hck, if_pos rfl, if_neg (by omega)]
  · rw [hck] at hi
    by_cases hk : k = 0
    · rw [if_pos hk] at hi
      split at hi
      · cases hi
      · next hge =>
        injection hi with h2
        subst h2
        omega
    · rw [if_neg hk] at hi
      split at hi
      · cases hi
      · next hge =>
        injection hi with h2
        subst h2
        omega
  · obtain ⟨h0, h1, _⟩ := getImg_some hgi
    rw [labelImage_some i hgi, navigateNext_optimisticLabel i h0 h1]
    exact ⟨_, rfl, getImg_setImg_self _ h0 h1⟩

/-- C10 witness: the theorem instantiated on the two-class list for keys 1
(class index 0), 3 (undefined class, warning only) and 0 (last class). -/
theorem handleClassKey_in_range_witness :
    handleClassKey exSession.classes 1 = some 0 ∧
    handleClassKey exSession.classes 3 = none ∧
    handleClassKey exSession.classes 0 = some (min 9 ((exSession.classes.length : Int) - 1)) ∧
    (0 ≤ (1 : Int) ∧ (1 : Int) < (exSession.classes.length : Int)) :=
  ⟨by have h := ((handleClassKey_in_range exSession.classes 1 (by decide)).1
        (by decide)).1 (by decide)
      simpa using h,
   ((handleClassKey_in_range exSession.classes 3 (by decide)).1 (by decide)).2 (by decide),
   (handleClassKey_in_range exSession.classes 0 (by decide)).2.1 rfl,
   (handleClassKey_in_range exSession.classes 0 (by decide)).2.2.1 1 (by decide)⟩

theorem uiStep_preserves_preview {s : UiState} (e : UiEvent)
    (h : s.activeOverlay = some Overlay.commit → s.commitPreview.isSome = true) :
    (uiStep s e).1.activeOverlay = some Overlay.commit →
    (uiStep s e).1.commitPreview.isSome = true := by
  cases e with
  | showCommitModal fetched =>
    cases fetched with
    | none => exact h
    | some p =>
      simp only [uiStep]
      split
      · intro _; rfl
      · intro _; rfl
  | confirmCommit =>
    simp only [uiStep]
    split
    · exact h
    · exact h
  | toggleHelp =>
    simp only [uiStep]
    split
    · intro hx; cases hx
    · intro hx; cases hx
  | toggleStats =>
    simp only [uiStep]
    split
    · intro hx; cases hx
    · intro hx; cases hx
  | closeOverlay =>
    intro hx; cases hx

theorem uiFold_preserves_preview :
    ∀ (es : List UiEvent) (s : UiState),
      (s.activeOverlay = some Overlay.commit → s.commitPreview.isSome = true) →
      ((es.foldl (fun t e => (uiStep t e).1) s).activeOverlay = some Overlay.commit →
       (es.foldl (fun t e => (uiStep t e).1) s).commitPreview.isSome = true)
  | [], _, h => h
  | e :: es, s, h => uiFold_preserves_preview es _ (uiStep_preserves_preview e h)

/-- C4: the commit request is only issued by `confirmCommit` while the commit
overlay is the active overlay; the commit overlay only becomes active through
`showCommitModal` after a successful preview fetch reporting a nonzero number
of changes; and in every state reachable from construction in which the
commit overlay is active, a preview has been fetched and cached. -/
theorem commit_needs_preview_and_confirmation :
    (∀ (s : UiState) (e : UiEvent), Req.commitPost ∈ (uiStep s e).2 →
      e = UiEvent.confirmCommit ∧ s.activeOverlay = some Overlay.commit) ∧
    (∀ (s : UiState) (e : UiEvent),
      (uiStep s e).1.activeOverlay = some Overlay.commit →
      s.activeOverlay = some Overlay.commit ∨
        ∃ p, e = UiEvent.showCommitModal (some p) ∧ p.total_changes ≠ 0) ∧
    (∀ es : List UiEvent, (uiRun es).activeOverlay = some Overlay.commit →
      (uiRun es).commitPreview.isSome = true) := by
  refine ⟨fun s e h => ?_, fun s e h => ?_, fun es => ?_⟩
  · cases e with
    | showCommitModal fetched =>
      cases fetched with
      | none => cases h
      | some p =>
        simp only [uiStep] at h
        split at h <;> cases h
    | confirmCommit =>
      simp only [uiStep] at h
      split at h
      · next hov => exact ⟨rfl, hov⟩
      · cases h
    | toggleHelp =>
      simp only [uiStep] at h
      split at h <;> cases h
    | toggleStats =>
      simp only [uiStep] at h
      split at h <;> cases h
    | closeOverlay => cases h
  · cases e with
    | showCommitModal fetched =>
      cases fetched with
      | none => exact Or.inl h
      | some p =>
        simp only [uiStep] at h
        split at h
        · exact Or.inl h
        · next hnz => exact Or.inr ⟨p, rfl, hnz⟩
    | confirmCommit =>
      simp only [uiStep] at h
      split at h
      · exact Or.inl h
      · exact Or.inl h
    | toggleHelp =>
      simp only [uiStep] at h
      split at h
      · cases h
      · cases h
    | toggleStats =>
      simp only [uiStep] at h
      split at h
      · cases h
      · cases h
    | closeOverlay => cases h
  · exact uiFold_preserves_preview es uiInit (fun hx => by cases hx)

/-- C4 witness: the theorem instantiated on a state with the commit overlay
open, the confirm event, and the one-event trace that fetches a two-change
preview. -/
theorem commit_needs_preview_and_confirmation_witness :
    (UiEvent.confirmCommit = UiEvent.confirmCommit ∧
      ({ activeOverlay := some Overlay.commit, commitPreview := some pvEx } :
        UiState).activeOverlay = some Overlay.commit) ∧
    (({ activeOverlay := some Overlay.commit, commitPreview := some pvEx } :
        UiState).activeOverlay = some Overlay.commit ∨
      ∃ p, UiEvent.showCommitModal (some pvEx) = UiEvent.showCommitModal (some p) ∧
        p.total_changes ≠ 0) ∧
    (uiRun [UiEvent.showCommitModal (some pvEx)]).commitPreview.isSome = true :=
  ⟨commit_needs_preview_and_confirmation.1
      { activeOverlay := some Overlay.commit, commitPreview := some pvEx }
      UiEvent.confirmCommit (by decide),
   commit_needs_preview_and_confirmation.2.1
      { activeOverlay := some Overlay.commit, commitPreview := some pvEx }
      (UiEvent.showCommitModal (some pvEx)) (by decide),
   commit_needs_preview_and_confirmation.2.2 [UiEvent.showCommitModal (some pvEx)] (by decide)⟩

theorem closeFire_iterate_attempt :
    ∀ (n : Nat) (s : WsState),
      (closeFire^[n] s).wsReconnectAttempt = s.wsReconnectAttempt + n := by
  intro n
  induction n with
  | zero => intro s; rfl
  | succ n ih =>
    intro s
    rw [Function.iterate_succ_apply]
    rw [ih]
    show (s.wsReconnectAttempt + 1) + n = s.wsReconnectAttempt + (n + 1)
    omega

/-- C5: starting from a state whose attempt counter is 0, the close ending the
nth failed reconnection cycle schedules a reconnect timer with delay
`WS_RECONNECT_DELAYS[min n 5]` — the nth entry of
`[1000, 2000, 4000, 8000, 16000, 30000]` for n < 6, capped at 30000 ms for all
later attempts — and shows the degraded-connectivity indicator; a successful
open resets the attempt counter to 0 and hides the indicator. -/
theorem reconnect_backoff :
    (∀ (st : WsState) (n : Nat), st.wsReconnectAttempt = 0 →
      (wsOnClose (closeFire^[n] st)).pendingDelay =
        some (WS_RECONNECT_DELAYS.getD (min n 5) 0) ∧
      (wsOnClose (closeFire^[n] st)).indicatorShown = true) ∧
    (∀ n : Nat, n < 6 → WS_RECONNECT_DELAYS.getD (min n 5) 0 = WS_RECONNECT_DELAYS.getD n 0) ∧
    (∀ n : Nat, 5 ≤ n → WS_RECONNECT_DELAYS.getD (min n 5) 0 = 30000) ∧
    (∀ st : WsState, (wsOnOpen st).wsReconnectAttempt = 0 ∧
      (wsOnOpen st).indicatorShown = false) := by
  refine ⟨fun st n h0 => ⟨?_, rfl⟩, fun n hn => ?_, fun n hn => ?_, fun st => ⟨rfl, rfl⟩⟩
  · show some (WS_RECONNECT_DELAYS.getD
        (min (closeFire^[n] st).wsReconnectAttempt (WS_RECONNECT_DELAYS.length - 1)) 0) =
      some (WS_RECONNECT_DELAYS.getD (min n 5) 0)
    rw [closeFire_iterate_attempt n st, h0]
    have h2 : (0 + n) ⊓ (WS_RECONNECT_DELAYS.length - 1) = n ⊓ 5 := by
      show (0 + n) ⊓ (6 - 1) = n ⊓ 5
      omega
    rw [h2]
  · have hm : min n 5 = n := by omega
    rw [hm]
  · have hm : min n 5 = 5 := by omega
    rw [hm]
    rfl

/-- C5 witness: the theorem instantiated at the 2nd and 7th consecutive
failure (delays 4000 and the 30000 cap) and a concrete open. -/
theorem reconnect_backoff_witness :
    ((wsOnClose (closeFire^[2] wsInit)).pendingDelay =
        some (WS_RECONNECT_DELAYS.getD (min 2 5) 0) ∧
      (wsOnClose (closeFire^[2] wsInit)).indicatorShown = true) ∧
    WS_RECONNECT_DELAYS.getD (min 2 5) 0 = WS_RECONNECT_DELAYS.getD 2 0 ∧
    WS_RECONNECT_DELAYS.getD (min 7 5) 0 = 30000 ∧
    ((wsOnOpen wsInit).wsReconnectAttempt = 0 ∧ (wsOnOpen wsInit).indicatorShown = false) :=
  ⟨reconnect_backoff.1 wsInit 2 rfl,
   reconnect_backoff.2.1 2 (by decide),
   reconnect_backoff.2.2.1 7 (by decide),
   reconnect_backoff.2.2.2 wsInit⟩

theorem cleanImageCache_eq_drop_aux :
    ∀ (n : Nat) (c : List String), c.length ≤ n →
      cleanImageCache c = c.drop (c.length - CACHE_MAX_SIZE) := by
  intro n
  induction n with
  | zero =>
    intro c hc
    have hnil : c = [] := List.eq_nil_of_length_eq_zero (by omega)
    subst hnil
    rw [cleanImageCache]
    rfl
  | succ n ih =>
    intro c hc
    by_cases h : CACHE_MAX_SIZE < c.length
    · rw [cleanImageCache, dif_pos h]
      rw [ih c.tail (by rw [List.length_tail]; omega)]
      cases c with
      | nil => simp at h
      | cons a t =>
        show t.drop (t.length - CACHE_MAX_SIZE) = (a :: t).drop ((a :: t).length - CACHE_MAX_SIZE)
        have hlen : (a :: t).length = t.length + 1 := rfl
        have h10 : CACHE_MAX_SIZE = 10 := rfl
        rw [hlen]
        have h2 : t.length + 1 - CACHE_MAX_SIZE = (t.length - CACHE_MAX_SIZE) + 1 := by omega
        rw [h2, List.drop_succ_cons]
    · rw [cleanImageCache, dif_neg h]
      have h2 : c.length - CACHE_MAX_SIZE = 0 := by omega
      rw [h2, List.drop_zero]

theorem cleanImageCache_eq_drop (c : List String) :
    cleanImageCache c = c.drop (c.length - CACHE_MAX_SIZE) :=
  cleanImageCache_eq_drop_aux c.length c (Nat.le_refl _)

/-- C6 (amended): `cleanImageCache` evicts exactly the earliest-inserted keys
— the result is the input with its first `length - 10` entries dropped, hence
a suffix of the input, never shedding a later-inserted key before an earlier
one — and leaves at most `CACHE_MAX_SIZE = 10` entries; consequently any
`prefetchImages` call on a session with at least one image leaves the cache
with at most 10 entries.  (With an empty image list `prefetchImages` returns
before cleaning.) -/
theorem cache_eviction_insertion_order :
    (∀ c : List String, cleanImageCache c = c.drop (c.length - CACHE_MAX_SIZE)) ∧
    (∀ c : List String, (cleanImageCache c).length ≤ CACHE_MAX_SIZE) ∧
    (∀ c : List String, (cleanImageCache c).IsSuffix c) ∧
    CACHE_MAX_SIZE = 10 ∧
    (∀ (s : Session) (cache inflight : List String), s.images.length ≠ 0 →
      (prefetchImages s cache inflight).1 = cleanImageCache cache ∧
      (prefetchImages s cache inflight).1.length ≤ CACHE_MAX_SIZE) := by
  have hdrop : ∀ c : List String, cleanImageCache c = c.drop (c.length - CACHE_MAX_SIZE) :=
    cleanImageCache_eq_drop
  have hlen : ∀ c : List String, (cleanImageCache c).length ≤ CACHE_MAX_SIZE := by
    intro c
    rw [hdrop, List.length_drop]
    omega
  refine ⟨hdrop, hlen, fun c => ?_, rfl, fun s cache inflight hne => ?_⟩
  · rw [hdrop]
    exact List.drop_suffix _ _
  · have hstep : (prefetchImages s cache inflight).1 = cleanImageCache cache := by
      unfold prefetchImages
      rw [if_neg hne]
    exact ⟨hstep, by rw [hstep]; exact hlen cache⟩

/-- C6 counterexample: the claim that the cache holds at most 10 entries after
every `prefetchImages` call fails as stated — on a session whose image list
is empty, `prefetchImages` returns before cleaning, so an over-capacity cache
of 11 entries survives the call untouched. -/
theorem cache_bound_counterexample :
    CACHE_MAX_SIZE = 10 ∧ bigCache.length = 11 ∧
    prefetchImages emptySession bigCache [] = (bigCache, [], []) ∧
    CACHE_MAX_SIZE < (prefetchImages emptySession bigCache []).1.length := by
  exact ⟨rfl, rfl, rfl, by decide⟩

/-- C6 (amended) witness: the theorem instantiated on the 11-entry cache and
the two-image session. -/
theorem cache_eviction_insertion_order_witness :
    cleanImageCache bigCache = bigCache.drop (bigCache.length - CACHE_MAX_SIZE) ∧
    (cleanImageCache bigCache).length ≤ CACHE_MAX_SIZE ∧
    (cleanImageCache bigCache).IsSuffix bigCache ∧
    ((prefetchImages exSession bigCache []).1 = cleanImageCache bigCache ∧
      (prefetchImages exSession bigCache []).1.length ≤ CACHE_MAX_SIZE) :=
  ⟨cache_eviction_insertion_order.1 bigCache,
   cache_eviction_insertion_order.2.1 bigCache,
   cache_eviction_insertion_order.2.2.1 bigCache,
   cache_eviction_insertion_order.2.2.2.2 exSession bigCache [] (by decide)⟩

theorem candidateAt_eq {images : List ImageInfo} {idx : Int} (h : 0 ≤ idx) :
    candidateAt images idx = (getImg images idx).map ImageInfo.id := by
  unfold candidateAt
  split
  · rfl
  · next hge =>
    unfold getImg
    rw [if_neg (by omega)]
    rfl

theorem filterMap_cons_toList {α β : Type} (f : α → Option β) (a : α) (l : List α) :
    List.filterMap f (a :: l) = (f a).toList ++ List.filterMap f l := by
  cases hfa : f a <;> simp [List.filterMap_cons, hfa]

theorem prefetchImage_skip {cache inflight : List String} {id : String}
    (h : cache.contains id || inflight.contains id) :
    prefetchImage cache inflight id = (inflight, none) := by
  unfold prefetchImage
  rw [if_pos h]

theorem prefetchImage_start {cache inflight : List String} {id : String}
    (h : ¬(cache.contains id || inflight.contains id)) :
    prefetchImage cache inflight id = (id :: inflight, some id) := by
  unfold prefetchImage
  rw [if_neg h]

theorem prefetchRun_spec (cache : List String) :
    ∀ (ids inflight : List String),
      (prefetchRun cache inflight ids).2.Nodup ∧
      ∀ x ∈ (prefetchRun cache inflight ids).2,
        cache.contains x = false ∧ inflight.contains x = false := by
  intro ids
  induction ids with
  | nil => intro inflight; exact ⟨List.nodup_nil, fun x hx => by cases hx⟩
  | cons id rest ih =>
    intro inflight
    by_cases h : cache.contains id || inflight.contains id
    · simp only [prefetchRun, prefetchImage_skip h]
      have hr := ih inflight
      refine ⟨by simpa using hr.1, fun x hx => ?_⟩
      simp only [Option.toList_none, List.nil_append] at hx
      exact hr.2 x hx
    · simp only [prefetchRun, prefetchImage_start h]
      have hr := ih (id :: inflight)
      have hnotin : id ∉ (prefetchRun cache (id :: inflight) rest).2 := by
        intro hmem
        have h2 := (hr.2 id hmem).2
        simp at h2
      constructor
      · simp only [Option.toList_some, List.singleton_append]
        exact List.nodup_cons.2 ⟨hnotin, hr.1⟩
      · intro x hx
        simp only [Option.toList_some, List.singleton_append, List.mem_cons] at hx
        rcases hx with hx | hx
        · subst hx
          constructor
          · cases hc : cache.contains x
            · rfl
            · exact absurd (by rw [hc]; rfl) h
          · cases hc : inflight.contains x
            · rfl
            · exact absurd (by rw [hc]; simp) h
        · have h2 := hr.2 x hx
          refine ⟨h2.1, ?_⟩
          have h3 := h2.2
          simp only [List.contains_cons, Bool.or_eq_false_iff] at h3
          exact h3.2

/-- C7: the candidate window of `prefetchImages` is exactly the ids at the
three indices after the cursor (each absent when past the end of the list)
followed by the id at the preceding index when the cursor is positive;
`prefetchImage` starts a fetch only for an id that is neither cached nor
in-flight, records a started id as in-flight, skips any cached or in-flight
id, and consequently one prefetch pass never starts two fetches for the same
id — the started fetches are pairwise distinct and disjoint from the cache
and the prior in-flight set. -/
theorem prefetch_window_no_duplicates :
    (∀ (images : List ImageInfo) (ci : Int), 0 ≤ ci →
      prefetchCandidates images ci =
        ((getImg images (ci + 1)).map ImageInfo.id).toList ++
        ((getImg images (ci + 2)).map ImageInfo.id).toList ++
        ((getImg images (ci + 3)).map ImageInfo.id).toList ++
        (if 0 < ci then ((getImg images (ci - 1)).map ImageInfo.id).toList else [])) ∧
    (∀ (cache inflight : List String) (id started : String),
      (prefetchImage cache inflight id).2 = some started →
      started = id ∧ cache.contains id = false ∧ inflight.contains id = false ∧
      (prefetchImage cache inflight id).1 = id :: inflight) ∧
    (∀ (cache inflight : List String) (id : String),
      cache.contains id = true ∨ inflight.contains id = true →
      prefetchImage cache inflight id = (inflight, none)) ∧
    (∀ (cache inflight ids : List String),
      (prefetchRun cache inflight ids).2.Nodup ∧
      ∀ x ∈ (prefetchRun cache inflight ids).2,
        cache.contains x = false ∧ inflight.contains x = false) := by
  refine ⟨fun images ci hci => ?_, fun cache inflight id started h => ?_,
          fun cache inflight id h => ?_, fun cache inflight ids => prefetchRun_spec cache ids inflight⟩
  · unfold prefetchCandidates
    have hr : List.range PREFETCH_COUNT = [0, 1, 2] := rfl
    rw [hr, filterMap_cons_toList, filterMap_cons_toList, filterMap_cons_toList,
        List.filterMap_nil]
    have e1 : ci + ((0 : Nat) : Int) + 1 = ci + 1 := by push_cast; ring
    have e2 : ci + ((1 : Nat) : Int) + 1 = ci + 2 := by push_cast; ring
    have e3 : ci + ((2 : Nat) : Int) + 1 = ci + 3 := by push_cast; ring
    rw [e1, e2, e3, candidateAt_eq (by omega), candidateAt_eq (by omega),
        candidateAt_eq (by omega)]
    simp [List.append_assoc]
  · by_cases hc : cache.contains id || inflight.contains id
    · rw [prefetchImage_skip hc] at h
      cases h
    · rw [prefetchImage_start hc] at h ⊢
      injection h with h2
      subst h2
      simp only [Bool.or_eq_true] at hc
      push_neg at hc
      exact ⟨rfl, by simpa using hc.1, by simpa using hc.2, rfl⟩
  · apply prefetchImage_skip
    rcases h with h | h
    · rw [h]
      rfl
    · rw [h]
      simp

/-- C7 witness: the theorem instantiated on the concrete session at cursor 1
(candidates: index 2 truncated away, indices beyond the end absent, index 0
as the preceding image), a started fetch, a skipped fetch, and a concrete
candidate list run twice over the same id. -/
theorem prefetch_window_no_duplicates_witness :
    (prefetchCandidates exSession.images 1 =
      ((getImg exSession.images (1 + 1)).map ImageInfo.id).toList ++
      ((getImg exSession.images (1 + 2)).map ImageInfo.id).toList ++
      ((getImg exSession.images (1 + 3)).map ImageInfo.id).toList ++
      (if (0 : Int) < 1 then ((getImg exSession.images (1 - 1)).map ImageInfo.id).toList
       else [])) ∧
    ("x.jpg" = "x.jpg" ∧ List.contains ["c.jpg"] "x.jpg" = false ∧
      List.contains [] "x.jpg" = false ∧
      (prefetchImage ["c.jpg"] [] "x.jpg").1 = ["x.jpg"]) ∧
    prefetchImage ["c.jpg"] [] "c.jpg" = ([], none) ∧
    ((prefetchRun [] [] ["x.jpg", "x.jpg"]).2.Nodup ∧
      ∀ x ∈ (prefetchRun [] [] ["x.jpg", "x.jpg"]).2,
        List.contains [] x = false ∧ List.contains [] x = false) :=
  ⟨prefetch_window_no_duplicates.1 exSession.images 1 (by decide),
   prefetch_window_no_duplicates.2.1 ["c.jpg"] [] "x.jpg" "x.jpg" (by decide),
   prefetch_window_no_duplicates.2.2.1 ["c.jpg"] [] "c.jpg" (Or.inl (by decide)),
   prefetch_window_no_duplicates.2.2.2 [] [] ["x.jpg", "x.jpg"]⟩

/-- C8 counterexample: the claim that any non-`g` key while awaiting the
second `g` returns the machine to idle fails as stated — no key handler
touches `lastKey`, so after `g`, another key, then `g`, all within the
timeout, the combo still fires. -/
theorem gg_combo_counterexample :
    (handleGKey comboIdle).1 = { lastKey := some 'g', timerArmed := true } ∧
    handleOtherKeyCombo { lastKey := some 'g', timerArmed := true } =
      { lastKey := some 'g', timerArmed := true } ∧
    handleOtherKeyCombo { lastKey := some 'g', timerArmed := true } ≠ comboIdle ∧
    (handleGKey (handleOtherKeyCombo (handleGKey comboIdle).1)).2.navigateFirst = true := by
  refine ⟨by decide, rfl, by decide, by decide⟩

/-- C8 (amended): the double-press machine has states idle and
awaiting-second-key; `g` in idle moves to awaiting and arms a
`DOUBLE_KEY_TIMEOUT = 300` ms timer, whose expiry returns the machine to
idle; `g` while awaiting cancels the timer, returns to idle and invokes
`navigateToFirstInFolder`, which moves the cursor to the first image of the
folder of the current image; any other key leaves the combo state unchanged — it
does not reset the machine to idle. -/
theorem gg_combo_machine :
    (∀ s : ComboState, s.lastKey ≠ some 'g' →
      handleGKey s = ({ lastKey := some 'g', timerArmed := true },
                      { navigateFirst := false, armedDelay := some DOUBLE_KEY_TIMEOUT })) ∧
    DOUBLE_KEY_TIMEOUT = 300 ∧
    (∀ s : ComboState, s.lastKey = some 'g' →
      handleGKey s = ({ lastKey := none, timerArmed := false },
                      { navigateFirst := true, armedDelay := none })) ∧
    (∀ s : ComboState, comboTimeoutFire s = comboIdle) ∧
    (∀ s : ComboState, handleOtherKeyCombo s = s) ∧
    (∀ (s : Session) (cur : ImageInfo) (i : Nat),
      getImg s.images s.current_index = some cur →
      s.images.findIdx? (fun img => folderOf img.id == folderOf cur.id) = some i →
      navigateToFirstInFolder (some s) = navigateToIndex (i : Int) (some s)) := by
  refine ⟨fun s hs => ?_, rfl, fun s hs => ?_, fun s => rfl, fun s => rfl,
          fun s cur i hcur hidx => ?_⟩
  · unfold handleGKey
    rw [if_neg hs]
  · unfold handleGKey
    rw [if_pos hs]
  · simp only [navigateToFirstInFolder]
    split
    · next heq => rw [hcur] at heq; cases heq
    · next cur2 heq =>
      rw [hcur] at heq
      injection heq with h2
      subst h2
      split
      · next heq2 => rw [hidx] at heq2; cases heq2
      · next j heq2 =>
        rw [hidx] at heq2
        injection heq2 with h3
        subst h3
        rfl

/-- C8 (amended) witness: the theorem instantiated on the concrete combo
states and the two-image session, whose root-folder current image makes
`navigateToFirstInFolder` target index 0. -/
theorem gg_combo_machine_witness :
    handleGKey comboIdle = ({ lastKey := some 'g', timerArmed := true },
      { navigateFirst := false, armedDelay := some DOUBLE_KEY_TIMEOUT }) ∧
    handleGKey { lastKey := some 'g', timerArmed := true } =
      ({ lastKey := none, timerArmed := false },
       { navigateFirst := true, armedDelay := none }) ∧
    comboTimeoutFire { lastKey := some 'g', timerArmed := true } = comboIdle ∧
    handleOtherKeyCombo { lastKey := some 'g', timerArmed := true } =
      { lastKey := some 'g', timerArmed := true } ∧
    navigateToFirstInFolder (some exSession) = navigateToIndex ((0 : Nat) : Int) (some exSession) :=
  ⟨gg_combo_machine.1 comboIdle (by decide),
   gg_combo_machine.2.2.1 { lastKey := some 'g', timerArmed := true } rfl,
   gg_combo_machine.2.2.2.1 { lastKey := some 'g', timerArmed := true },
   gg_combo_machine.2.2.2.2.1 { lastKey := some 'g', timerArmed := true },
   gg_combo_machine.2.2.2.2.2 exSession imgA 0 (by decide) (by decide)⟩

end SwiftLabel
